import Mathlib

/-!
Verification of the data-proc-pipeline-app repository core:
the Ingestion Processor (src/lambda/data-proc.ts) and the
Request Authorizer (src/lambda/authorizer.ts), embedded shallowly.

Strings are processed at the character-list level; byte/character
conversions (Buffer.from / Buffer.toString with utf-8) and base64
framing (Node's lenient base64 decoder) are modelled explicitly.
-/

/-! ## Character-level string utilities (JS semantics) -/

/-- JS `String.prototype.split(sep)` for a one-character separator, at the
character-list level: every occurrence of the separator starts a new piece,
and empty pieces are kept (`"".split` gives one empty piece). -/
def splitOnChar (sep : Char) : List Char → List (List Char)
  | [] => [[]]
  | c :: cs =>
    if c = sep then [] :: splitOnChar sep cs
    else
      match splitOnChar sep cs with
      | [] => [[c]]
      | piece :: rest => (c :: piece) :: rest

/-- JS `String.prototype.trim` at the character-list level: drop leading and
trailing whitespace characters. -/
def trimChars (l : List Char) : List Char :=
  ((l.dropWhile Char.isWhitespace).reverse.dropWhile Char.isWhitespace).reverse

/-- `trim` lifted back to `String`. -/
def jsTrim (s : String) : String :=
  String.mk (trimChars s.data)

/-! ## UTF-8 codec: model of `Buffer.from(string)` / `buffer.toString('utf-8')` -/

/-- UTF-8 encoding of one character (code point), as a list of byte values. -/
def utf8EncodeChar (c : Char) : List Nat :=
  let n := c.toNat
  if n < 0x80 then [n]
  else if n < 0x800 then [0xC0 + n / 64, 0x80 + n % 64]
  else if n < 0x10000 then
    [0xE0 + n / 4096, 0x80 + (n / 64) % 64, 0x80 + n % 64]
  else
    [0xF0 + n / 262144, 0x80 + (n / 4096) % 64, 0x80 + (n / 64) % 64, 0x80 + n % 64]

/-- UTF-8 encoding of a string, as the byte sequence `Buffer.from(s)` holds. -/
def utf8Encode (s : String) : List Nat :=
  (s.data.map utf8EncodeChar).flatten

/-- One UTF-8 decoding step: from a lead byte and the remaining bytes, the
decoded character and the bytes left over.  Lenient: ill-formed sequences
still produce a character; on well-formed input it inverts `utf8EncodeChar`. -/
def utf8Step (b : Nat) (bs : List Nat) : Char × List Nat :=
  if b < 0x80 then (Char.ofNat b, bs)
  else if b < 0xE0 then
    match bs with
    | b2 :: bs2 => (Char.ofNat ((b - 0xC0) * 64 + (b2 - 0x80)), bs2)
    | [] => (Char.ofNat 0xFFFD, [])
  else if b < 0xF0 then
    match bs with
    | b2 :: b3 :: bs3 =>
      (Char.ofNat ((b - 0xE0) * 4096 + (b2 - 0x80) * 64 + (b3 - 0x80)), bs3)
    | _ => (Char.ofNat 0xFFFD, [])
  else
    match bs with
    | b2 :: b3 :: b4 :: bs4 =>
      (Char.ofNat ((b - 0xF0) * 262144 + (b2 - 0x80) * 4096 + (b3 - 0x80) * 64 + (b4 - 0x80)),
        bs4)
    | _ => (Char.ofNat 0xFFFD, [])

/-- Fuel-driven iteration of `utf8Step`; the fuel only serves termination and
is irrelevant as soon as it bounds the byte count (`utf8Go_congr`). -/
def utf8Go : Nat → List Nat → List Char
  | _, [] => []
  | 0, _ :: _ => []
  | fuel + 1, b :: bs => (utf8Step b bs).1 :: utf8Go fuel (utf8Step b bs).2

/-- UTF-8 decoding of a byte sequence (model of `buffer.toString('utf-8')`). -/
def utf8DecodeBytes (bs : List Nat) : List Char :=
  utf8Go bs.length bs

/-- UTF-8 decoding to a `String`. -/
def utf8Decode (bs : List Nat) : String :=
  String.mk (utf8DecodeBytes bs)

/-! ## Base64: model of the caller's framing and Node's lenient un-framing -/

/-- The base64 alphabet, in index order. -/
def b64Alphabet : List Char :=
  "ABCDEFGHIJKLMNOPQRSTUVWXYZabcdefghijklmnopqrstuvwxyz0123456789+/".data

/-- The character for a 6-bit group. -/
def b64Chr (n : Nat) : Char := b64Alphabet.getD n 'A'

/-- The 6-bit value of an alphabet character. -/
def b64Val (c : Char) : Nat := b64Alphabet.indexOf c

/-- Whether a character belongs to the base64 alphabet (padding excluded). -/
def isB64Char (c : Char) : Bool := b64Alphabet.contains c

/-- Standard base64 encoding of a byte sequence, with `=` padding: the framing
applied by the caller before the payload reaches the handler. -/
def b64Encode : List Nat → List Char
  | [] => []
  | [b1] => [b64Chr (b1 / 4), b64Chr (b1 % 4 * 16), '=', '=']
  | [b1, b2] => [b64Chr (b1 / 4), b64Chr (b1 % 4 * 16 + b2 / 16), b64Chr (b2 % 16 * 4), '=']
  | b1 :: b2 :: b3 :: rest =>
    b64Chr (b1 / 4) :: b64Chr (b1 % 4 * 16 + b2 / 16) :: b64Chr (b2 % 16 * 4 + b3 / 64)
      :: b64Chr (b3 % 64) :: b64Encode rest

/-- Decoding of a stream of already-filtered alphabet characters, four at a
time; a trailing group of two or three characters yields one or two bytes, a
lone trailing character is dropped. -/
def b64DecodeRaw : List Char → List Nat
  | c1 :: c2 :: c3 :: c4 :: rest =>
    (b64Val c1 * 4 + b64Val c2 / 16)
      :: (b64Val c2 % 16 * 16 + b64Val c3 / 4)
      :: (b64Val c3 % 4 * 64 + b64Val c4)
      :: b64DecodeRaw rest
  | [c1, c2, c3] =>
    [b64Val c1 * 4 + b64Val c2 / 16, b64Val c2 % 16 * 16 + b64Val c3 / 4]
  | [c1, c2] => [b64Val c1 * 4 + b64Val c2 / 16]
  | _ => []

/-- Node's lenient base64 decoder (`Buffer.from(s, 'base64')`): characters
outside the alphabet — including `=` padding and any malformed garbage — are
ignored rather than rejected; decoding never fails. -/
def b64Decode (s : List Char) : List Nat :=
  b64DecodeRaw (s.filter isB64Char)

/-- Newline join of a list of lines (the payload the caller frames in
Scenario-style round trips). -/
def joinLines : List (List Char) → List Char
  | [] => []
  | [l] => l
  | l :: l2 :: rest => l ++ '\n' :: joinLines (l2 :: rest)

/-- Modelled from the spec: strict base64 well-formedness, the notion under
which an un-framing could "fail" (`MalformedPayload`) — a body of alphabet
characters, at most two `=` padding characters at the end, and a length that
is a multiple of four.  The source has no such check. -/
def strictBase64Valid (s : String) : Bool :=
  (s.data.dropWhile isB64Char).all (fun c => c = '=')
    && (s.data.dropWhile isB64Char).length ≤ 2
    && s.length % 4 = 0

/-! ## Ingestion Processor: embedding of src/lambda/data-proc.ts -/

/-- A record produced from one non-empty line: `{ id: uuidv4(), content: line }`. -/
structure Record where
  id : String
  content : String
  deriving DecidableEq, Repr

/-- The per-line id assignment of `processTextFile`'s final `.map`: the `i`-th
surviving line receives the `i`-th freshly generated identifier (`uuidv4()` is
modelled by an ambient supply `genId` of distinct draws). -/
def assignIds (genId : Nat → String) : Nat → List String → List Record
  | _, [] => []
  | i, line :: rest => { id := genId i, content := line } :: assignIds genId (i + 1) rest

/-- `processTextFile` (src/lambda/data-proc.ts, lines 7-18): split the content
on `'\n'`, trim every line, keep the lines of positive length, and wrap each
in a `Record` with a fresh id. -/
def processTextFile (genId : Nat → String) (fileContent : String) : List Record :=
  let lines := (splitOnChar '\n' fileContent.data).map (fun l => String.mk (trimChars l))
  assignIds genId 0 (lines.filter (fun line => decide (0 < line.length)))

/-- The body-to-text step of the handler (lines 25-32): base64 un-framing when
`isBase64Encoded`, else a plain byte copy, followed by `toString('utf-8')`. -/
def decodeBody (body : String) (isBase64Encoded : Bool) : String :=
  if isBase64Encoded then utf8Decode (b64Decode body.data)
  else utf8Decode (utf8Encode body)

/-- The records the handler derives from an event body. -/
def decodeRecords (genId : Nat → String) (body : String) (isBase64Encoded : Bool) :
    List Record :=
  processTextFile genId (decodeBody body isBase64Encoded)

/-- The sequential awaited write loop (lines 38-43): each `dynamo.put` either
succeeds (`writeOk` is true on the record) or throws; a throw leaves the loop
at once.  Returns the records actually written and whether the loop finished. -/
def writeAll (writeOk : Record → Bool) : List Record → List Record × Bool
  | [] => ([], true)
  | r :: rs =>
    if writeOk r then
      ((writeAll writeOk rs).1.cons r, (writeAll writeOk rs).2)
    else ([], false)

/-- The JSON body shapes the handler returns: `{"message": ...}` on success,
`{"error": ...}` on the catch-all failure path. -/
inductive RespBody where
  | message (s : String)
  | error (s : String)
  deriving DecidableEq, Repr

/-- Outcome of one handler invocation: the HTTP-style response plus the
records that reached storage (the observable effect on the storage sink). -/
structure HandlerResult where
  statusCode : Nat
  body : RespBody
  written : List Record
  deriving DecidableEq, Repr

/-- The handler (src/lambda/data-proc.ts, lines 21-56).  `event.body` is
`Option String` (`none` models an absent / non-string body, on which
`Buffer.from(undefined)` throws and the catch-all answers 500); a write
failure also lands in the catch-all.  Every path returns a response. -/
def dataHandler (genId : Nat → String) (writeOk : Record → Bool)
    (body : Option String) (isBase64Encoded : Bool) : HandlerResult :=
  match body with
  | none => { statusCode := 500, body := .error "Failed to process the file", written := [] }
  | some b =>
    let recs := decodeRecords genId b isBase64Encoded
    let attempt := writeAll writeOk recs
    if attempt.2 then
      { statusCode := 200
        body := .message "File processed and data stored successfully!"
        written := attempt.1 }
    else
      { statusCode := 500, body := .error "Failed to process the file", written := attempt.1 }

/-! ## Request Authorizer: embedding of src/lambda/authorizer.ts -/

/-- The decoded JWT payload fields the authorizer reads.  `sub` is the subject
claim with `""` standing for an absent or empty subject (both are falsy in the
source); `email` and `customRole` are `none` when the claim is absent or not a
string. -/
structure Claims where
  sub : String
  email : Option String
  customRole : Option String
  deriving DecidableEq, Repr

/-- Outcome of `cognitoJwtVerifier.verify`: the decoded claims, or a thrown
verification error (signature, issuer, audience or expiry failure — the
distinction is invisible to the caller, which only catches). -/
inductive VerifResult where
  | ok (c : Claims)
  | fail
  deriving DecidableEq, Repr

/-- Allow/Deny effect. -/
inductive Effect where
  | allow
  | deny
  deriving DecidableEq, Repr

/-- The `context` object built by `verifyTokenAndGenerateEffect`; the Deny
branch carries no email key. -/
structure AuthContext where
  userId : String
  email : Option String
  role : String
  deriving DecidableEq, Repr

/-- `verifyTokenAndGenerateEffect` (src/lambda/authorizer.ts, lines 20-46),
applied to the verifier's outcome: on success Allow with the claim-derived
context (email defaults to `""`, role to `"USER"`); on any failure Deny with
the anonymous/GUEST context. -/
def verifyTokenAndGenerateEffect (v : VerifResult) : Effect × AuthContext :=
  match v with
  | .ok c =>
    (.allow, { userId := c.sub
               email := some (c.email.getD "")
               role := c.customRole.getD "USER" })
  | .fail => (.deny, { userId := "anonymous", email := none, role := "GUEST" })

/-- The IAM policy document `generatePolicy` builds. -/
structure PolicyDocument where
  version : String
  action : String
  effect : Effect
  resource : String
  deriving DecidableEq, Repr

/-- The single error the authorizer ever throws: `new Error('Unauthorized')`
(the internal `generatePolicy` message is swallowed by the handler's catch,
which rethrows this one). -/
inductive AuthError where
  | unauthorized
  deriving DecidableEq, Repr

/-- `generatePolicy` (lines 49-63): rejects a falsy `principalId` or
`resource` (the `effect` argument, a nonempty string in both cases, is never
falsy) and otherwise returns the policy document. -/
def generatePolicy (principalId : String) (effect : Effect) (resource : String) :
    Except AuthError PolicyDocument :=
  if principalId = "" ∨ resource = "" then .error .unauthorized
  else .ok { version := "2012-10-17"
             action := "execute-api:Invoke"
             effect := effect
             resource := resource }

/-- The inbound authorizer event: the `authorization` header (if present) and
`methodArn`. -/
structure AuthEvent where
  authorization : Option String
  methodArn : String
  deriving DecidableEq, Repr

/-- The authorizer's success response. -/
structure AuthResponse where
  principalId : String
  policyDocument : PolicyDocument
  context : AuthContext
  deriving DecidableEq, Repr

/-- The token extraction of line 70 together with the falsiness test of
line 72: `event.headers?.['authorization']?.split(' ')[1]`, where a missing
header, a header without a second space-separated part, and an empty second
part are all falsy. -/
def extractToken (ev : AuthEvent) : Option String :=
  match ev.authorization with
  | none => none
  | some h =>
    match (splitOnChar ' ' h.data).get? 1 with
    | none => none
    | some t => if t = [] then none else some (String.mk t)

/-- The authorizer handler (src/lambda/authorizer.ts, lines 66-99),
parameterized by the verifier (`cognitoJwtVerifier.verify`, external library
code): a missing/falsy token throws Unauthorized; otherwise the verification
outcome is turned into effect and context, the policy is generated (a throw
there is caught and rethrown as Unauthorized), and the response is returned. -/
def authHandler (verify : String → VerifResult) (ev : AuthEvent) :
    Except AuthError AuthResponse :=
  match extractToken ev with
  | none => .error .unauthorized
  | some tok =>
    let ec := verifyTokenAndGenerateEffect (verify tok)
    match generatePolicy ec.2.userId ec.1 ev.methodArn with
    | .error _ => .error .unauthorized
    | .ok pd => .ok { principalId := ec.2.userId, policyDocument := pd, context := ec.2 }

/-! ## Helper lemmas: the UTF-8 decoder's fuel -/

theorem utf8Step_snd_length (b : Nat) (bs : List Nat) :
    (utf8Step b bs).2.length ≤ bs.length := by
  unfold utf8Step
  repeat' split
  all_goals simp_all
  all_goals omega

theorem utf8Go_congr : ∀ (f1 : Nat) (bs : List Nat) (f2 : Nat),
    bs.length ≤ f1 → bs.length ≤ f2 → utf8Go f1 bs = utf8Go f2 bs := by
  intro f1
  induction f1 with
  | zero =>
    intro bs f2 h1 _
    cases bs with
    | nil => cases f2 <;> rfl
    | cons b bs' => simp at h1
  | succ g1 ih =>
    intro bs f2 h1 h2
    cases bs with
    | nil => cases f2 <;> rfl
    | cons b bs' =>
      cases f2 with
      | zero => simp at h2
      | succ g2 =>
        rw [utf8Go, utf8Go]
        have hlen := utf8Step_snd_length b bs'
        simp only [List.length_cons] at h1 h2
        rw [ih (utf8Step b bs').2 g2 (by omega) (by omega)]

theorem utf8DecodeBytes_cons (b : Nat) (bs : List Nat) :
    utf8DecodeBytes (b :: bs) =
      (utf8Step b bs).1 :: utf8DecodeBytes (utf8Step b bs).2 := by
  unfold utf8DecodeBytes
  simp only [List.length_cons]
  rw [utf8Go]
  have hlen := utf8Step_snd_length b bs
  rw [utf8Go_congr bs.length (utf8Step b bs).2 (utf8Step b bs).2.length (by omega) (by omega)]

/-! ## Helper lemmas: the write loop -/

/-- The write loop writes exactly the longest all-successful prefix and
finishes iff every write succeeds. -/
theorem writeAll_eq_takeWhile_all (writeOk : Record → Bool) (rs : List Record) :
    writeAll writeOk rs = (rs.takeWhile writeOk, rs.all writeOk) := by
  induction rs with
  | nil => rfl
  | cons r rs ih =>
    cases h : writeOk r <;>
      simp [writeAll, h, ih, List.takeWhile_cons, List.all_cons]

/-! ## Helper lemmas: id assignment -/

theorem assignIds_map_content (genId : Nat → String) (ls : List String) :
    ∀ i, (assignIds genId i ls).map Record.content = ls := by
  induction ls with
  | nil => intro i; rfl
  | cons l rest ih => intro i; simp [assignIds, ih]

theorem content_mem_of_mem_assignIds (genId : Nat → String) (ls : List String)
    (r : Record) : ∀ i, r ∈ assignIds genId i ls → r.content ∈ ls := by
  induction ls with
  | nil => intro i h; simp [assignIds] at h
  | cons l rest ih =>
    intro i h
    rcases (by simpa [assignIds] using h) with h' | h'
    · subst h'; simp
    · exact List.mem_cons_of_mem l (ih (i + 1) h')

/-! ## Helper lemmas: splitting -/

theorem splitOnChar_ne_nil (sep : Char) (l : List Char) : splitOnChar sep l ≠ [] := by
  induction l with
  | nil => simp [splitOnChar]
  | cons c cs ih =>
    by_cases h : c = sep
    · simp [splitOnChar, h]
    · simp only [splitOnChar, if_neg h]
      cases hs : splitOnChar sep cs <;> simp

theorem mem_of_mem_splitOnChar (sep : Char) (l piece : List Char) (c : Char)
    (hp : piece ∈ splitOnChar sep l) (hc : c ∈ piece) : c ∈ l := by
  induction l generalizing piece with
  | nil =>
    simp [splitOnChar] at hp
    subst hp; simp at hc
  | cons a cs ih =>
    by_cases h : a = sep
    · simp only [splitOnChar, if_pos h, List.mem_cons] at hp
      rcases hp with hp | hp
      · subst hp; simp at hc
      · exact List.mem_cons_of_mem a (ih piece hp hc)
    · simp only [splitOnChar, if_neg h] at hp
      cases hs : splitOnChar sep cs with
      | nil => exact absurd hs (splitOnChar_ne_nil sep cs)
      | cons piece0 rest =>
        rw [hs] at hp
        rcases (by simpa using hp) with hp | hp
        · subst hp
          rcases (by simpa using hc) with hc | hc
          · simp [hc]
          · exact List.mem_cons_of_mem a
              (ih piece0 (by rw [hs]; exact List.mem_cons_self piece0 rest) hc)
        · exact List.mem_cons_of_mem a
            (ih piece (by rw [hs]; exact List.mem_cons_of_mem piece0 hp) hc)

/-- Splitting a separator-free list yields that single piece. -/
theorem splitOnChar_of_not_mem (sep : Char) (l : List Char) (h : sep ∉ l) :
    splitOnChar sep l = [l] := by
  induction l with
  | nil => rfl
  | cons c cs ih =>
    have hc : ¬c = sep := fun he => h (he ▸ List.mem_cons_self c cs)
    have hcs : sep ∉ cs := fun hm => h (List.mem_cons_of_mem c hm)
    simp only [splitOnChar, if_neg hc, ih hcs]

/-- Splitting past the first separator occurrence. -/
theorem splitOnChar_append (sep : Char) (l rest : List Char) (h : sep ∉ l) :
    splitOnChar sep (l ++ sep :: rest) = l :: splitOnChar sep rest := by
  induction l with
  | nil => simp [splitOnChar]
  | cons c cs ih =>
    have hc : ¬c = sep := fun he => h (he ▸ List.mem_cons_self c cs)
    have hcs : sep ∉ cs := fun hm => h (List.mem_cons_of_mem c hm)
    simp only [List.cons_append, splitOnChar, List.append_eq, if_neg hc, ih hcs]

/-! ## Helper lemmas: trimming -/

theorem dropWhile_head_not (p : Char → Bool) (l : List Char) (c : Char) (t : List Char)
    (h : List.dropWhile p l = c :: t) : p c = false := by
  induction l with
  | nil => simp [List.dropWhile] at h
  | cons a as ih =>
    rw [List.dropWhile_cons] at h
    by_cases hp : p a
    · exact ih (by simpa [hp] using h)
    · rw [if_neg (by simpa using hp)] at h
      rcases h with ⟨rfl, rfl⟩
      simpa using hp

theorem trimChars_eq_nil_of_all_ws (l : List Char)
    (h : ∀ c ∈ l, c.isWhitespace) : trimChars l = [] := by
  unfold trimChars
  rw [List.dropWhile_eq_nil_iff.mpr h]
  rfl

theorem trimChars_idem (l : List Char) : trimChars (trimChars l) = trimChars l := by
  have hdw : List.dropWhile Char.isWhitespace (trimChars l) = trimChars l := by
    cases ht : trimChars l with
    | nil => rfl
    | cons c t' =>
      obtain ⟨u, hu⟩ :=
        List.rdropWhile_prefix Char.isWhitespace (List.dropWhile Char.isWhitespace l)
      have hm : List.dropWhile Char.isWhitespace l = c :: (t' ++ u) := by
        rw [← hu,
          show List.rdropWhile Char.isWhitespace (List.dropWhile Char.isWhitespace l) =
            trimChars l from rfl, ht]
        rfl
      have hc := dropWhile_head_not Char.isWhitespace l c (t' ++ u) hm
      rw [List.dropWhile_cons, if_neg (by simp [hc])]
  calc trimChars (trimChars l)
      = List.rdropWhile Char.isWhitespace
          (List.dropWhile Char.isWhitespace (trimChars l)) := rfl
    _ = List.rdropWhile Char.isWhitespace (trimChars l) := by rw [hdw]
    _ = List.rdropWhile Char.isWhitespace
          (List.rdropWhile Char.isWhitespace (List.dropWhile Char.isWhitespace l)) := rfl
    _ = List.rdropWhile Char.isWhitespace (List.dropWhile Char.isWhitespace l) :=
        List.rdropWhile_idempotent Char.isWhitespace
          (List.dropWhile Char.isWhitespace l)
    _ = trimChars l := rfl

theorem exists_not_ws_of_trimmed (l : List Char) (hne : l ≠ [])
    (hfix : trimChars l = l) : ∃ c ∈ l, ¬c.isWhitespace := by
  by_contra hall
  push_neg at hall
  have : trimChars l = [] :=
    trimChars_eq_nil_of_all_ws l (by intro c hc; simpa using hall c hc)
  exact hne (by rw [← hfix, this])

/-! ## Helper lemmas: UTF-8 round trip -/

theorem char_toNat_lt (c : Char) : c.toNat < 1114112 := by
  have h := c.valid
  simp only [UInt32.isValidChar, Nat.isValidChar] at h
  rcases h with h | h <;> simp only [Char.toNat] <;> omega

theorem utf8EncodeChar_lt (c : Char) : ∀ b ∈ utf8EncodeChar c, b < 256 := by
  intro b hb
  have hlt := char_toNat_lt c
  unfold utf8EncodeChar at hb
  by_cases h1 : c.toNat < 128
  · simp only [if_pos h1] at hb
    simp at hb; omega
  · by_cases h2 : c.toNat < 2048
    · simp only [if_neg h1, if_pos h2] at hb
      rcases (by simpa using hb) with rfl | rfl <;> omega
    · by_cases h3 : c.toNat < 65536
      · simp only [if_neg h1, if_neg h2, if_pos h3] at hb
        rcases (by simpa using hb) with rfl | rfl | rfl <;> omega
      · simp only [if_neg h1, if_neg h2, if_neg h3] at hb
        rcases (by simpa using hb) with rfl | rfl | rfl | rfl <;> omega

theorem utf8Step_encodeChar (c : Char) (rest : List Nat) :
    ∃ b0 t, utf8EncodeChar c = b0 :: t ∧ utf8Step b0 (t ++ rest) = (c, rest) := by
  have hlt := char_toNat_lt c
  have hofnat := Char.ofNat_toNat c
  unfold utf8EncodeChar
  by_cases h1 : c.toNat < 128
  · refine ⟨c.toNat, [], by rw [if_pos h1], ?_⟩
    rw [List.nil_append]
    unfold utf8Step
    rw [if_pos h1, hofnat]
  · by_cases h2 : c.toNat < 2048
    · refine ⟨192 + c.toNat / 64, [128 + c.toNat % 64], by rw [if_neg h1, if_pos h2], ?_⟩
      rw [List.cons_append, List.nil_append]
      unfold utf8Step
      rw [if_neg (by omega), if_pos (by omega)]
      have harith : (192 + c.toNat / 64 - 192) * 64 + (128 + c.toNat % 64 - 128) = c.toNat := by
        omega
      simp only []
      rw [harith, hofnat]
    · by_cases h3 : c.toNat < 65536
      · refine ⟨224 + c.toNat / 4096, [128 + c.toNat / 64 % 64, 128 + c.toNat % 64],
          by rw [if_neg h1, if_neg h2, if_pos h3], ?_⟩
        rw [List.cons_append, List.cons_append, List.nil_append]
        unfold utf8Step
        rw [if_neg (by omega), if_neg (by omega), if_pos (by omega)]
        have harith : (224 + c.toNat / 4096 - 224) * 4096 +
            (128 + c.toNat / 64 % 64 - 128) * 64 + (128 + c.toNat % 64 - 128) = c.toNat := by
          omega
        simp only []
        rw [harith, hofnat]
      · refine ⟨240 + c.toNat / 262144,
          [128 + c.toNat / 4096 % 64, 128 + c.toNat / 64 % 64, 128 + c.toNat % 64],
          by rw [if_neg h1, if_neg h2, if_neg h3], ?_⟩
        rw [List.cons_append, List.cons_append, List.cons_append, List.nil_append]
        unfold utf8Step
        rw [if_neg (by omega), if_neg (by omega), if_neg (by omega)]
        have harith : (240 + c.toNat / 262144 - 240) * 262144 +
            (128 + c.toNat / 4096 % 64 - 128) * 4096 +
            (128 + c.toNat / 64 % 64 - 128) * 64 + (128 + c.toNat % 64 - 128) = c.toNat := by
          omega
        simp only []
        rw [harith, hofnat]

theorem utf8DecodeBytes_encodeChar (c : Char) (rest : List Nat) :
    utf8DecodeBytes (utf8EncodeChar c ++ rest) = c :: utf8DecodeBytes rest := by
  obtain ⟨b0, t, henc, hstep⟩ := utf8Step_encodeChar c rest
  rw [henc, List.cons_append, utf8DecodeBytes_cons, hstep]

theorem utf8DecodeBytes_encodeList (cs : List Char) :
    utf8DecodeBytes ((cs.map utf8EncodeChar).flatten) = cs := by
  induction cs with
  | nil => rfl
  | cons c rest ih =>
    rw [List.map_cons, List.flatten_cons, utf8DecodeBytes_encodeChar, ih]

theorem utf8Decode_utf8Encode (s : String) : utf8Decode (utf8Encode s) = s := by
  unfold utf8Decode utf8Encode
  rw [utf8DecodeBytes_encodeList]

/-! ## Helper lemmas: base64 round trip -/

theorem b64Val_b64Chr : ∀ n, n < 64 → b64Val (b64Chr n) = n := by decide

theorem mem_b64Alphabet_b64Chr (n : Nat) : b64Chr n ∈ b64Alphabet := by
  unfold b64Chr
  by_cases h : n < b64Alphabet.length
  · rw [List.getD_eq_getElem _ _ h]
    exact List.getElem_mem h
  · rw [List.getD_eq_default _ _ (by omega)]
    decide

theorem isB64Char_b64Chr (n : Nat) : isB64Char (b64Chr n) = true := by
  unfold isB64Char
  exact List.elem_eq_true_of_mem (mem_b64Alphabet_b64Chr n)

theorem isB64Char_pad : isB64Char '=' = false := by decide

theorem b64Decode_b64Encode (bs : List Nat) (h : ∀ b ∈ bs, b < 256) :
    b64Decode (b64Encode bs) = bs := by
  unfold b64Decode
  induction bs using b64Encode.induct with
  | case1 => rfl
  | case2 b1 =>
    have hb1 : b1 < 256 := h b1 (by simp)
    rw [b64Encode]
    simp only [List.filter_cons, List.filter_nil, isB64Char_b64Chr, isB64Char_pad,
      if_true, if_false, Bool.false_eq_true]
    rw [b64DecodeRaw, b64Val_b64Chr _ (by omega), b64Val_b64Chr _ (by omega)]
    have : b1 / 4 * 4 + b1 % 4 * 16 / 16 = b1 := by omega
    rw [this]
  | case3 b1 b2 =>
    have hb1 : b1 < 256 := h b1 (by simp)
    have hb2 : b2 < 256 := h b2 (by simp)
    rw [b64Encode]
    simp only [List.filter_cons, List.filter_nil, isB64Char_b64Chr, isB64Char_pad,
      if_true, if_false, Bool.false_eq_true]
    rw [b64DecodeRaw, b64Val_b64Chr _ (by omega), b64Val_b64Chr _ (by omega),
      b64Val_b64Chr _ (by omega)]
    have e1 : b1 / 4 * 4 + (b1 % 4 * 16 + b2 / 16) / 16 = b1 := by omega
    have e2 : (b1 % 4 * 16 + b2 / 16) % 16 * 16 + b2 % 16 * 4 / 4 = b2 := by omega
    rw [e1, e2]
  | case4 b1 b2 b3 rest ih =>
    have hb1 : b1 < 256 := h b1 (by simp)
    have hb2 : b2 < 256 := h b2 (by simp)
    have hb3 : b3 < 256 := h b3 (by simp)
    have hr : ∀ b ∈ rest, b < 256 := by
      intro b hb; exact h b (by simp [hb])
    rw [b64Encode]
    simp only [List.filter_cons, isB64Char_b64Chr, if_true]
    rw [b64DecodeRaw, b64Val_b64Chr _ (by omega), b64Val_b64Chr _ (by omega),
      b64Val_b64Chr _ (by omega), b64Val_b64Chr _ (by omega)]
    have e1 : b1 / 4 * 4 + (b1 % 4 * 16 + b2 / 16) / 16 = b1 := by omega
    have e2 : (b1 % 4 * 16 + b2 / 16) % 16 * 16 + (b2 % 16 * 4 + b3 / 64) / 4 = b2 := by
      omega
    have e3 : (b2 % 16 * 4 + b3 / 64) % 4 * 64 + b3 % 64 = b3 := by omega
    rw [e1, e2, e3, ih hr]

/-! ## Helper lemmas: processTextFile -/

theorem string_ne_empty_iff_data (s : String) : s ≠ "" ↔ s.data ≠ [] := by
  constructor
  · intro h hd
    exact h (by rw [show s = String.mk s.data from rfl, hd])
  · intro h he
    exact h (by rw [he])

theorem string_pos_length_iff (s : String) : 0 < s.length ↔ s ≠ "" := by
  rw [string_ne_empty_iff_data, show s.length = s.data.length from rfl]
  exact List.length_pos

/-- Every record `processTextFile` produces has nonempty content which is a
fixpoint of trimming. -/
theorem processTextFile_content (genId : Nat → String) (s : String) (r : Record)
    (h : r ∈ processTextFile genId s) :
    r.content ≠ "" ∧ trimChars r.content.data = r.content.data := by
  unfold processTextFile at h
  have hmem := content_mem_of_mem_assignIds genId _ r 0 h
  rw [List.mem_filter] at hmem
  obtain ⟨hmem, hpos⟩ := hmem
  have hpos' : 0 < r.content.length := of_decide_eq_true hpos
  refine ⟨(string_pos_length_iff r.content).mp hpos', ?_⟩
  rw [List.mem_map] at hmem
  obtain ⟨piece, _, hpiece⟩ := hmem
  rw [← hpiece, show (String.mk (trimChars piece)).data = trimChars piece from rfl,
    trimChars_idem]

/-- An all-whitespace file content produces no records. -/
theorem processTextFile_eq_nil_of_ws (genId : Nat → String) (s : String)
    (h : ∀ c ∈ s.data, c.isWhitespace) : processTextFile genId s = [] := by
  unfold processTextFile
  have hfil : ((splitOnChar '\n' s.data).map (fun l => String.mk (trimChars l))).filter
      (fun line => decide (0 < line.length)) = [] := by
    rw [List.filter_eq_nil_iff]
    intro line hline
    rw [List.mem_map] at hline
    obtain ⟨piece, hpiece, hmk⟩ := hline
    have hws : ∀ c ∈ piece, c.isWhitespace :=
      fun c hc => h c (mem_of_mem_splitOnChar '\n' s.data piece c hpiece hc)
    rw [← hmk, show (String.mk (trimChars piece)).length = (trimChars piece).length from rfl,
      trimChars_eq_nil_of_all_ws piece hws]
    simp
  simp only [hfil]
  rfl

theorem splitOnChar_joinLines (ls : List (List Char)) (hne : ls ≠ [])
    (h : ∀ l ∈ ls, '\n' ∉ l) : splitOnChar '\n' (joinLines ls) = ls := by
  induction ls with
  | nil => exact absurd rfl hne
  | cons l rest ih =>
    cases rest with
    | nil =>
      rw [joinLines]
      exact splitOnChar_of_not_mem '\n' l (h l (List.mem_cons_self l []))
    | cons l2 rest2 =>
      rw [joinLines, splitOnChar_append '\n' l _ (h l (List.mem_cons_self l _)),
        ih (by simp) (fun x hx => h x (List.mem_cons_of_mem l hx))]

/-- Decoding a newline join of nonempty trimmed newline-free lines returns
exactly those lines as record contents. -/
theorem processTextFile_joinLines (genId : Nat → String) (L : List String)
    (h : ∀ l ∈ L, l ≠ "" ∧ trimChars l.data = l.data ∧ '\n' ∉ l.data) :
    (processTextFile genId (String.mk (joinLines (L.map String.data)))).map
      Record.content = L := by
  cases L with
  | nil => rfl
  | cons l0 rest =>
    unfold processTextFile
    rw [show (String.mk (joinLines ((l0 :: rest).map String.data))).data =
      joinLines ((l0 :: rest).map String.data) from rfl]
    rw [splitOnChar_joinLines ((l0 :: rest).map String.data) (by simp)
      (by
        intro l hl
        rw [List.mem_map] at hl
        obtain ⟨x, hx, rfl⟩ := hl
        exact (h x hx).2.2)]
    have hmap : ((l0 :: rest).map String.data).map (fun l => String.mk (trimChars l)) =
        l0 :: rest := by
      rw [List.map_map]
      have : ∀ x ∈ l0 :: rest, (fun l => String.mk (trimChars l)) (String.data x) = x := by
        intro x hx
        simp only [Function.comp]
        rw [(h x hx).2.1]
      calc (l0 :: rest).map ((fun l => String.mk (trimChars l)) ∘ String.data)
          = (l0 :: rest).map id := List.map_congr_left (by
            intro x hx
            simp only [Function.comp, id]
            rw [(h x hx).2.1])
        _ = l0 :: rest := List.map_id _
    rw [hmap]
    have hfil : (l0 :: rest).filter (fun line => decide (0 < line.length)) = l0 :: rest := by
      rw [List.filter_eq_self]
      intro a ha
      exact decide_eq_true ((string_pos_length_iff a).mpr (h a ha).1)
    simp only [hfil]
    exact assignIds_map_content genId (l0 :: rest) 0

/-- Whitespace characters are outside the base64 alphabet. -/
theorem isB64Char_eq_false_of_ws (c : Char) (h : c.isWhitespace = true) :
    isB64Char c = false := by
  have hc : ((c = ' ' ∨ c = '\t') ∨ c = '\x0d') ∨ c = '\n' := by
    simpa [Char.isWhitespace] using h
  rcases hc with ((rfl | rfl) | rfl) | rfl <;> decide

theorem utf8Encode_lt (s : String) : ∀ b ∈ utf8Encode s, b < 256 := by
  intro b hb
  unfold utf8Encode at hb
  rw [List.mem_flatten] at hb
  obtain ⟨bl, hbl, hb⟩ := hb
  rw [List.mem_map] at hbl
  obtain ⟨c, _, rfl⟩ := hbl
  exact utf8EncodeChar_lt c b hb

/-! ## Claims about the Ingestion Processor -/

/-- C1 (counterexample): for the three-record body `"a\nb\nc"` where exactly
the second record's write fails, the handler does not reach
`recordsWritten = 2` with a one-element failures list: only the first record
is written (the failure aborts the loop before the third write) and the whole
request is answered with a 500 error response carrying no failure detail. -/
theorem c1_counterexample :
    (dataHandler (fun n => toString n) (fun r => !(r.content == "b"))
        (some "a\nb\nc") false).written.map Record.content = ["a"]
    ∧ ¬(dataHandler (fun n => toString n) (fun r => !(r.content == "b"))
        (some "a\nb\nc") false).written.length = 2
    ∧ (dataHandler (fun n => toString n) (fun r => !(r.content == "b"))
        (some "a\nb\nc") false).statusCode = 500 :=
  ⟨by decide, by decide, by decide⟩

/-- C1 (amended): writes are attempted sequentially but not independently —
the records that reach storage are exactly the longest all-successful prefix
of the decoded batch (a failure aborts every later write), and the handler
answers 200 iff every single write succeeded, else a 500 with no per-record
failure list. -/
theorem c1_amended_sequential_abort :
    ∀ (genId : Nat → String) (writeOk : Record → Bool) (body : String) (isB64 : Bool),
      (dataHandler genId writeOk (some body) isB64).written
          = (decodeRecords genId body isB64).takeWhile writeOk
      ∧ (dataHandler genId writeOk (some body) isB64).statusCode
          = (if (decodeRecords genId body isB64).all writeOk then 200 else 500) := by
  intro genId writeOk body isB64
  unfold dataHandler
  simp only [writeAll_eq_takeWhile_all]
  cases h : (decodeRecords genId body isB64).all writeOk <;> simp [h]

/-- C3 (counterexample): the framed payload `"!!!!"` is not well-formed
base64, yet the handler does not reject it before writes with a
MalformedPayload-style error: un-framing silently yields zero bytes and the
request succeeds with a 200 response (even under a writer that would fail
every write, proving no write was ever attempted and no rejection occurred). -/
theorem c3_counterexample :
    strictBase64Valid "!!!!" = false
    ∧ dataHandler (fun n => toString n) (fun _ => false) (some "!!!!") true
      = { statusCode := 200
          body := RespBody.message "File processed and data stored successfully!"
          written := [] } :=
  ⟨by decide, by decide⟩

/-- C3 (amended): the handler performs no payload validation at all — base64
un-framing is lenient and never fails, and no maximum-size check exists — so
every payload (of any content and size, framed or not) proceeds to line
splitting and the write loop; whenever the writes succeed the response is a
200 success. -/
theorem c3_amended_no_rejection :
    ∀ (genId : Nat → String) (body : String) (isB64 : Bool),
      (dataHandler genId (fun _ => true) (some body) isB64).statusCode = 200 := by
  intro genId body isB64
  unfold dataHandler
  simp only [writeAll_eq_takeWhile_all]
  have hall : (decodeRecords genId body isB64).all (fun _ => true) = true :=
    List.all_eq_true.mpr (fun _ _ => rfl)
  simp [hall]

/-- C6: on the unframed path the body is interpreted as UTF-8 text unchanged,
split on newlines, trimmed, and blank lines are dropped: every produced record
has nonempty, trimmed, not-whitespace-only content, and the concrete input
`"hello\nworld\n\n  \n"` yields exactly the two records `"hello"`, `"world"`. -/
theorem c6_unframed_decode (genId : Nat → String) (body : String) (r : Record)
    (h : r ∈ decodeRecords genId body false) :
    (r.content ≠ "" ∧ trimChars r.content.data = r.content.data
      ∧ ∃ c ∈ r.content.data, ¬c.isWhitespace)
    ∧ decodeBody body false = body
    ∧ (decodeRecords (fun n => toString n) "hello\nworld\n\n  \n" false).map
        Record.content = ["hello", "world"] := by
  have hdb : decodeBody body false = body := by
    rw [show decodeBody body false = utf8Decode (utf8Encode body) from rfl,
      utf8Decode_utf8Encode]
  have h' : r ∈ processTextFile genId body := by
    unfold decodeRecords at h
    rw [hdb] at h
    exact h
  obtain ⟨hne, hfix⟩ := processTextFile_content genId body r h'
  exact ⟨⟨hne, hfix,
    exists_not_ws_of_trimmed r.content.data
      ((string_ne_empty_iff_data r.content).mp hne) hfix⟩, hdb, by decide⟩

/-- C6 (witness): the record `"hello"` is produced from the scenario input and
the theorem's conclusion holds for it. -/
theorem c6_witness :
    ((⟨"0", "hello"⟩ : Record) ∈ decodeRecords (fun n => toString n)
      "hello\nworld\n\n  \n" false)
    ∧ ((("hello" : String) ≠ "" ∧ trimChars ("hello" : String).data = ("hello" : String).data
        ∧ ∃ c ∈ ("hello" : String).data, ¬c.isWhitespace)
      ∧ decodeBody "hello\nworld\n\n  \n" false = "hello\nworld\n\n  \n"
      ∧ (decodeRecords (fun n => toString n) "hello\nworld\n\n  \n" false).map
          Record.content = ["hello", "world"]) :=
  ⟨by decide, c6_unframed_decode (fun n => toString n) "hello\nworld\n\n  \n"
    ⟨"0", "hello"⟩ (by decide)⟩

/-- C7: an entirely empty or all-blank payload decodes to zero records and is
not an error: the handler stores nothing and answers with the 200 success
response. -/
theorem c7_blank_payload (genId : Nat → String) (writeOk : Record → Bool)
    (body : String) (isB64 : Bool) (h : ∀ c ∈ body.data, c.isWhitespace) :
    decodeRecords genId body isB64 = []
    ∧ dataHandler genId writeOk (some body) isB64
      = { statusCode := 200
          body := RespBody.message "File processed and data stored successfully!"
          written := [] } := by
  have hrec : decodeRecords genId body isB64 = [] := by
    unfold decodeRecords decodeBody
    cases isB64 with
    | false =>
      rw [show (if (false : Bool) = true then utf8Decode (b64Decode body.data)
          else utf8Decode (utf8Encode body)) = utf8Decode (utf8Encode body) from rfl,
        utf8Decode_utf8Encode]
      exact processTextFile_eq_nil_of_ws genId body h
    | true =>
      have hfil : body.data.filter isB64Char = [] := by
        rw [List.filter_eq_nil_iff]
        intro c hc
        simp [isB64Char_eq_false_of_ws c (h c hc)]
      rw [show (if (true : Bool) = true then utf8Decode (b64Decode body.data)
          else utf8Decode (utf8Encode body)) = utf8Decode (b64Decode body.data) from rfl]
      unfold b64Decode
      rw [hfil]
      exact processTextFile_eq_nil_of_ws genId "" (by intro c hc; simp at hc)
  refine ⟨hrec, ?_⟩
  unfold dataHandler
  simp only [hrec]
  rfl

/-- C7 (witness): the all-blank body `" \n "` satisfies the hypothesis and the
conclusion holds for it. -/
theorem c7_witness :
    (∀ c ∈ (" \n " : String).data, c.isWhitespace)
    ∧ (decodeRecords (fun n => toString n) " \n " false = []
      ∧ dataHandler (fun n => toString n) (fun _ => true) (some " \n ") false
        = { statusCode := 200
            body := RespBody.message "File processed and data stored successfully!"
            written := [] }) :=
  ⟨by decide, c7_blank_payload (fun n => toString n) (fun _ => true) " \n " false (by decide)⟩

/-- C8: framing round trip — base64-encoding the newline join of any finite
list of nonempty, trimmed, newline-free lines and decoding with the framing
flag set reproduces exactly those lines as the record contents (here even in
the original order, hence a fortiori as an order-insensitive set). -/
theorem c8_roundtrip (genId : Nat → String) (L : List String)
    (h : ∀ l ∈ L, l ≠ "" ∧ trimChars l.data = l.data ∧ '\n' ∉ l.data) :
    (decodeRecords genId
        (String.mk (b64Encode (utf8Encode (String.mk (joinLines (L.map String.data))))))
        true).map Record.content = L := by
  unfold decodeRecords decodeBody
  rw [show (if (true : Bool) = true
      then utf8Decode (b64Decode (String.mk (b64Encode
        (utf8Encode (String.mk (joinLines (L.map String.data)))))).data)
      else utf8Decode (utf8Encode (String.mk (b64Encode
        (utf8Encode (String.mk (joinLines (L.map String.data))))))))
    = utf8Decode (b64Decode (b64Encode
        (utf8Encode (String.mk (joinLines (L.map String.data)))))) from rfl]
  rw [b64Decode_b64Encode _ (utf8Encode_lt _), utf8Decode_utf8Encode]
  exact processTextFile_joinLines genId L h

/-- C8 (witness): the two-line set `["hi", "yo"]` satisfies the hypothesis and
survives the framing round trip. -/
theorem c8_witness :
    (∀ l ∈ (["hi", "yo"] : List String),
      l ≠ "" ∧ trimChars l.data = l.data ∧ '\n' ∉ l.data)
    ∧ (decodeRecords (fun n => toString n)
        (String.mk (b64Encode (utf8Encode (String.mk
          (joinLines ((["hi", "yo"] : List String).map String.data)))))) true).map
        Record.content = ["hi", "yo"] :=
  ⟨by decide, c8_roundtrip (fun n => toString n) ["hi", "yo"] (by decide)⟩

/-- C9: the handler never lets an exception escape: for every event — body
present or absent, any storage outcome — it returns either the 200 response
with the JSON success message or the 500 response with the JSON error body;
in particular a missing body yields the 500 error response. -/
theorem c9_total_classified :
    ∀ (genId : Nat → String) (writeOk : Record → Bool) (body : Option String)
      (isB64 : Bool),
      (((dataHandler genId writeOk body isB64).statusCode = 200
          ∧ (dataHandler genId writeOk body isB64).body
            = RespBody.message "File processed and data stored successfully!")
        ∨ ((dataHandler genId writeOk body isB64).statusCode = 500
          ∧ (dataHandler genId writeOk body isB64).body
            = RespBody.error "Failed to process the file"))
      ∧ (dataHandler genId writeOk none isB64).statusCode = 500 := by
  intro genId writeOk body isB64
  refine ⟨?_, rfl⟩
  cases body with
  | none => exact Or.inr ⟨rfl, rfl⟩
  | some b =>
    unfold dataHandler
    cases h : (writeAll writeOk (decodeRecords genId b isB64)).2 <;> simp [h]

/-! ## Claims about the Request Authorizer -/

/-- C2 (counterexample): a request that does carry a credential can still make
the authorizer throw the Unauthorized error: when the verifier accepts the
token but its subject claim is empty, policy generation rejects the falsy
principal and the handler throws instead of returning a Deny decision. -/
theorem c2_counterexample :
    extractToken { authorization := some "Bearer tok", methodArn := "arn:resource" }
      = some "tok"
    ∧ authHandler
        (fun _ => VerifResult.ok { sub := "", email := none, customRole := none })
        { authorization := some "Bearer tok", methodArn := "arn:resource" }
      = Except.error AuthError.unauthorized :=
  ⟨rfl, rfl⟩

/-- C2 (amended): the authorizer throws Unauthorized when the credential is
structurally absent, and also whenever policy generation rejects a falsy
principal or resource; for every request that carries a credential, provided
the resource (methodArn) is nonempty and the principal derived from the
verification outcome is nonempty (which holds for every verification failure,
whose principal is `"anonymous"`), the handler returns a decision rather than
throwing. -/
theorem c2_no_throw_with_credential (verify : String → VerifResult) (ev : AuthEvent)
    (tok : String) (hext : extractToken ev = some tok) (harn : ev.methodArn ≠ "")
    (hprin : (verifyTokenAndGenerateEffect (verify tok)).2.userId ≠ "") :
    ∃ r, authHandler verify ev = Except.ok r := by
  unfold authHandler
  rw [hext]
  simp only []
  unfold generatePolicy
  rw [if_neg ?hcond]
  case hcond =>
    rintro (hc | hc)
    exacts [hprin hc, harn hc]
  exact ⟨_, rfl⟩

/-- C2 (witness): a request carrying a failing credential, with nonempty
methodArn, gets a decision back. -/
theorem c2_witness :
    ∃ r, authHandler (fun _ => VerifResult.fail)
      { authorization := some "Bearer t", methodArn := "arn:r" } = Except.ok r :=
  c2_no_throw_with_credential (fun _ => VerifResult.fail)
    { authorization := some "Bearer t", methodArn := "arn:r" } "t" rfl
    (by decide) (by decide)

/-- C4 (counterexample): a credential whose verification succeeds need not
produce an Allow decision: when the accepted token's subject claim is the
empty string the handler throws Unauthorized instead of returning any
decision. -/
theorem c4_counterexample :
    (fun _ : String => VerifResult.ok
        { sub := "", email := some "user@example.com", customRole := some "ADMIN" }) "abc"
      = VerifResult.ok
        { sub := "", email := some "user@example.com", customRole := some "ADMIN" }
    ∧ authHandler
        (fun _ => VerifResult.ok
          { sub := "", email := some "user@example.com", customRole := some "ADMIN" })
        { authorization := some "Bearer abc", methodArn := "arn:aws:execute-api:res" }
      = Except.error AuthError.unauthorized :=
  ⟨rfl, rfl⟩

/-- C4 (amended): for every credential whose verification succeeds with a
nonempty subject claim (and a nonempty resource), the handler returns a
decision with effect Allow whose principal is the token's subject, whose
context role is the custom role claim when present and `"USER"` otherwise, and
whose context email is the token's email claim when present. -/
theorem c4_allow_on_success (verify : String → VerifResult) (ev : AuthEvent)
    (tok : String) (c : Claims) (hext : extractToken ev = some tok)
    (hok : verify tok = VerifResult.ok c) (hsub : c.sub ≠ "")
    (harn : ev.methodArn ≠ "") :
    ∃ r, authHandler verify ev = Except.ok r
      ∧ r.principalId = c.sub
      ∧ r.policyDocument.effect = Effect.allow
      ∧ r.context.role = c.customRole.getD "USER"
      ∧ (∀ e, c.email = some e → r.context.email = some e) := by
  unfold authHandler
  rw [hext]
  simp only [hok, verifyTokenAndGenerateEffect]
  unfold generatePolicy
  rw [if_neg ?hcond]
  case hcond =>
    rintro (hc | hc)
    exacts [hsub hc, harn hc]
  refine ⟨_, rfl, rfl, rfl, rfl, ?_⟩
  intro e he
  rw [he]
  rfl

/-- C4 (witness): an accepted token with subject `"user-1"`, email and custom
role present, yields the Allow decision with the matching fields. -/
theorem c4_witness :
    ∃ r, authHandler
        (fun _ => VerifResult.ok
          { sub := "user-1", email := some "a@b.c", customRole := some "ADMIN" })
        { authorization := some "Bearer tok4", methodArn := "arn:4" } = Except.ok r
      ∧ r.principalId = "user-1"
      ∧ r.policyDocument.effect = Effect.allow
      ∧ r.context.role = (some "ADMIN").getD "USER"
      ∧ (∀ e, some "a@b.c" = some e → r.context.email = some e) :=
  c4_allow_on_success
    (fun _ => VerifResult.ok
      { sub := "user-1", email := some "a@b.c", customRole := some "ADMIN" })
    { authorization := some "Bearer tok4", methodArn := "arn:4" } "tok4"
    { sub := "user-1", email := some "a@b.c", customRole := some "ADMIN" }
    rfl rfl (by decide) (by decide)

/-- C5: for every credential whose verification fails — whatever the failure
kind, expired-with-valid-signature included, since the handler observes only
the thrown verification error — the authorizer returns a Deny decision with
principal `"anonymous"` and context role `"GUEST"` (given the spec's
precondition of a nonempty resource identifier). -/
theorem c5_deny_on_failure (verify : String → VerifResult) (ev : AuthEvent)
    (tok : String) (hext : extractToken ev = some tok)
    (hfail : verify tok = VerifResult.fail) (harn : ev.methodArn ≠ "") :
    ∃ r, authHandler verify ev = Except.ok r
      ∧ r.principalId = "anonymous"
      ∧ r.policyDocument.effect = Effect.deny
      ∧ r.context.role = "GUEST" := by
  unfold authHandler
  rw [hext]
  simp only [hfail, verifyTokenAndGenerateEffect]
  unfold generatePolicy
  rw [if_neg ?hcond]
  case hcond =>
    rintro (hc | hc)
    · exact absurd hc (by decide)
    · exact harn hc
  exact ⟨_, rfl, rfl, rfl, rfl⟩

/-- C5 (witness): a failing credential on a nonempty methodArn yields the
anonymous GUEST Deny decision. -/
theorem c5_witness :
    ∃ r, authHandler (fun _ => VerifResult.fail)
        { authorization := some "Bearer tk", methodArn := "arn:aws:execute-api:r" }
        = Except.ok r
      ∧ r.principalId = "anonymous"
      ∧ r.policyDocument.effect = Effect.deny
      ∧ r.context.role = "GUEST" :=
  c5_deny_on_failure (fun _ => VerifResult.fail)
    { authorization := some "Bearer tk", methodArn := "arn:aws:execute-api:r" }
    "tk" rfl rfl (by decide)

/-- C10: when verification succeeds but the decoded subject claim is empty
(modelling an absent or empty `sub`), the handler does not return an Allow
decision: policy generation rejects the falsy principal and the handler
throws the same Unauthorized error it throws for a missing credential. -/
theorem c10_falsy_principal_throws (verify : String → VerifResult) (ev : AuthEvent)
    (tok : String) (c : Claims) (hext : extractToken ev = some tok)
    (hok : verify tok = VerifResult.ok c) (hsub : c.sub = "") :
    authHandler verify ev = Except.error AuthError.unauthorized
    ∧ authHandler verify { authorization := none, methodArn := ev.methodArn }
      = Except.error AuthError.unauthorized := by
  constructor
  · unfold authHandler
    rw [hext]
    simp only [hok, verifyTokenAndGenerateEffect]
    unfold generatePolicy
    rw [if_pos (Or.inl hsub)]
  · rfl

/-- C10 (witness): an accepted token with empty subject makes the handler
throw, exactly as the credential-less request does. -/
theorem c10_witness :
    authHandler (fun _ => VerifResult.ok { sub := "", email := none, customRole := none })
      { authorization := some "Bearer z", methodArn := "arn:z" }
      = Except.error AuthError.unauthorized
    ∧ authHandler (fun _ => VerifResult.ok { sub := "", email := none, customRole := none })
      { authorization := none, methodArn := "arn:z" }
      = Except.error AuthError.unauthorized :=
  c10_falsy_principal_throws
    (fun _ => VerifResult.ok { sub := "", email := none, customRole := none })
    { authorization := some "Bearer z", methodArn := "arn:z" } "z"
    { sub := "", email := none, customRole := none } rfl rfl rfl
